import Mathlib

/-!
Verification development for the agentic provisioning engine.

Shallow embedding of the core engine of the repository:
- `services/terraform_cleaner.py` (artifact cleaner `clean_terraform_code`)
- `services/langgraph.py` (graph executor `execute_graph`)
- `services/terraform_exec.py` (stage callbacks `init_cb`, `plan_cb`,
  `apply_cb`, `heal_cb`, throttle controller `maybe_reduce_parallelism`,
  generic runner `run_stage`)

Python strings are modeled as `String` / `List Char`; Python `dict`
results as structures whose `Option` fields distinguish an absent key
(`none`) from a present one; Python `None` values inside a present key are
an inner `Option`. External processes and the repair oracle are modeled
as explicit inputs (their exit code / stdout / stderr / response text).
-/

/-- A single-quote character (ASCII 39), used to build the executor's
error messages exactly as the Python source formats them. -/
def pyq : String := String.singleton (Char.ofNat 39)

/-- A left-brace character (ASCII 123). -/
def lbrace : Char := Char.ofNat 123

/-- Python `\s` on the ASCII range: the whitespace class used by the
regular expressions in `terraform_cleaner.py` and by `str.strip()`. -/
def pyWs (c : Char) : Bool :=
  c == ' ' || c == '\t' || c == '\n' || c == '\r' || c == '\x0b' || c == '\x0c'

/-- Python `str.replace(pat, repl)`: left-to-right, non-overlapping
replacement of every occurrence of `pat` (the replacement text is not
rescanned, matching split/join semantics).  Structural recursion on a
fuel bound: every step consumes at least one character of `s`, so fuel
`s.length` (supplied by `replaceL`) is never exhausted and the `0, s`
fallback arm is unreachable. -/
def replaceFuel (pat repl : List Char) : Nat → List Char → List Char
  | _, [] => []
  | 0, s => s
  | fuel + 1, c :: rest =>
    if pat ≠ [] ∧ pat.isPrefixOf (c :: rest) then
      repl ++ replaceFuel pat repl fuel ((c :: rest).drop pat.length)
    else
      c :: replaceFuel pat repl fuel rest

/-- Python `str.replace(pat, repl)`. -/
def replaceL (pat repl : List Char) (s : List Char) : List Char :=
  replaceFuel pat repl s.length s

/-- Index of the first occurrence of `pat` in `s` (as in `re`-style
leftmost search for a literal), `none` when `pat` does not occur. -/
def findSub (pat : List Char) (s : List Char) : Option Nat :=
  match s with
  | [] => if pat.isPrefixOf ([] : List Char) then some 0 else none
  | _ :: rest =>
    if pat.isPrefixOf s then some 0
    else (findSub pat rest).map (· + 1)

/-- Python `"pat" in s` substring test. -/
def containsSub (pat s : String) : Bool :=
  (findSub pat.toList s.toList).isSome

/-- Python `str.lower()` (on the ASCII range, which covers every string
the source lowercases: node types and edge conditions). -/
def strLower (s : String) : String :=
  String.mk (s.toList.map Char.toLower)

/-!
### Artifact cleaner (`services/terraform_cleaner.py`, `clean_terraform_code`)
-/

/-- The triple-backtick fence marker. -/
def fenceL : List Char := "```".toList

/-- Step of `clean_terraform_code`:
`re.sub(r"```[\s\S]*?```", lambda m: m.group(0).replace("```", ""), text)`.
Each non-greedy paired-fence match keeps its enclosed text and drops the
two fence markers; scanning resumes after the match (non-overlapping). -/
def stripFenceFuel : Nat → List Char → List Char
  | 0, s => s
  | fuel + 1, s =>
    match findSub fenceL s with
    | none => s
    | some i =>
      match findSub fenceL (s.drop (i + 3)) with
      | none => s
      | some j =>
        s.take i ++ (s.drop (i + 3)).take j ++ stripFenceFuel fuel ((s.drop (i + 3)).drop (j + 3))

/-- The paired-fence substitution; every recursion step consumes at
least the six fence characters, so fuel `s.length` suffices. -/
def stripFencePairs (s : List Char) : List Char :=
  stripFenceFuel s.length s

/-- Greedy match of `\s*[-*+]\s+` at the current position (the regex is
deterministic here: the bullet characters are not whitespace, so the
greedy quantifiers never backtrack into a successful match).  Returns the
remaining text after the match together with whether the last consumed
character was a newline (i.e. whether the position after the match is
again a line start for the multiline `^` anchor). -/
def matchBulletAt (s : List Char) : Option (List Char × Bool) :=
  match s.dropWhile pyWs with
  | [] => none
  | c :: rest =>
    if c = '-' ∨ c = '*' ∨ c = '+' then
      let ws := rest.takeWhile pyWs
      if ws.isEmpty then none
      else some (rest.dropWhile pyWs, decide (ws.getLast? = some '\n'))
    else none

/-- Greedy match of `\s*\d+\.\s+` at the current position (deterministic
for the same reason as `matchBulletAt`). -/
def matchNumAt (s : List Char) : Option (List Char × Bool) :=
  let t := s.dropWhile pyWs
  if (t.takeWhile Char.isDigit).isEmpty then none
  else
    match t.dropWhile Char.isDigit with
    | [] => none
    | c :: rest =>
      if c = '.' then
        let ws := rest.takeWhile pyWs
        if ws.isEmpty then none
        else some (rest.dropWhile pyWs, decide (ws.getLast? = some '\n'))
      else none

/-- Step of `clean_terraform_code`: `re.sub(r"(?m)^\s*[-*+]\s+", "", text)`.
The boolean tracks whether the current position is a line start (position
0 or just after a newline), where the multiline `^` anchor matches. -/
def subBulletsFuel : Nat → Bool → List Char → List Char
  | _, _, [] => []
  | 0, _, s => s
  | fuel + 1, atStart, c :: rest =>
    if atStart then
      match matchBulletAt (c :: rest) with
      | some p => subBulletsFuel fuel p.2 p.1
      | none => c :: subBulletsFuel fuel (decide (c = '\n')) rest
    else c :: subBulletsFuel fuel (decide (c = '\n')) rest

/-- The bullet substitution; a successful match consumes at least two
characters (`matchBulletAt_lt`), so fuel `s.length` suffices and the
`0, s` fallback arm is unreachable. -/
def subBullets (atStart : Bool) (s : List Char) : List Char :=
  subBulletsFuel s.length atStart s

/-- Step of `clean_terraform_code`: `re.sub(r"(?m)^\s*\d+\.\s+", "", text)`. -/
def subNumsFuel : Nat → Bool → List Char → List Char
  | _, _, [] => []
  | 0, _, s => s
  | fuel + 1, atStart, c :: rest =>
    if atStart then
      match matchNumAt (c :: rest) with
      | some p => subNumsFuel fuel p.2 p.1
      | none => c :: subNumsFuel fuel (decide (c = '\n')) rest
    else c :: subNumsFuel fuel (decide (c = '\n')) rest

/-- The numbering substitution; a successful match consumes at least
three characters (`matchNumAt_lt`), so fuel `s.length` suffices. -/
def subNums (atStart : Bool) (s : List Char) : List Char :=
  subNumsFuel s.length atStart s

/-- Step of `clean_terraform_code`: the four `str.replace` calls mapping
Unicode smart quotes to plain ASCII quotes (each pattern is one
character, so the sequential replaces are one character map). -/
def smartQuoteMap (c : Char) : Char :=
  if c = '‘' ∨ c = '’' then Char.ofNat 39
  else if c = '“' ∨ c = '”' then '"'
  else c

/-- `[A-Za-z0-9_]` (the regex word class used in the `resource` anchor). -/
def isWordChar (c : Char) : Bool :=
  (97 ≤ c.toNat && c.toNat ≤ 122) || (65 ≤ c.toNat && c.toNat ≤ 90) ||
  (48 ≤ c.toNat && c.toNat ≤ 57) || c == '_'

/-- Case-insensitive literal match of (pre-lowercased) `pat` at the head
of `s`, implementing `re.IGNORECASE` for the ASCII anchor keywords. -/
def lowerEq (pat : List Char) (s : List Char) : Bool :=
  decide ((s.take pat.length).map Char.toLower = pat)

/-- Match of the first anchor alternative `terraform\s*\{` at the head of
`s` (case-insensitive; deterministic since a brace is not whitespace). -/
def anchorTerraform (s : List Char) : Bool :=
  lowerEq ("terraform".toList) s &&
  (((s.drop 9).dropWhile pyWs).head? == some lbrace)

/-- Match of the second anchor alternative `provider\s*\"aws\"` at the
head of `s`. -/
def anchorProvider (s : List Char) : Bool :=
  lowerEq ("provider".toList) s &&
  lowerEq ("\"aws\"".toList) ((s.drop 8).dropWhile pyWs)

/-- Match of the third anchor alternative `resource\s*\"[A-Za-z0-9_]+\"`
at the head of `s`. -/
def anchorResource (s : List Char) : Bool :=
  lowerEq ("resource".toList) s &&
  (match (s.drop 8).dropWhile pyWs with
   | [] => false
   | c :: rest =>
     c == '"' && !(rest.takeWhile isWordChar).isEmpty &&
     ((rest.dropWhile isWordChar).head? == some '"')
   : Bool)

/-- One of the three `re.search` alternatives of `clean_terraform_code`
matches at the head of `s`. -/
def anchorAt (s : List Char) : Bool :=
  anchorTerraform s || anchorProvider s || anchorResource s

/-- `match.start()` of
`re.search(r"(terraform\s*\{)|(provider\s*\"aws\")|(resource\s*\"[A-Za-z0-9_]+\")", text, re.IGNORECASE)`:
the leftmost position at which some alternative matches. -/
def findAnchor : List Char → Option Nat
  | [] => none
  | c :: rest => if anchorAt (c :: rest) then some 0 else (findAnchor rest).map (· + 1)

/-- Python `str.strip()` on the ASCII whitespace range. -/
def pyStripL (s : List Char) : List Char :=
  ((s.dropWhile pyWs).reverse.dropWhile pyWs).reverse

/-- Python `str.strip()` on `String`. -/
def pyStrip (s : String) : String :=
  String.mk (pyStripL s.toList)

/-- Steps 1-4 of `clean_terraform_code` (everything before the anchor
search): CRLF normalization, fence handling, bullet and numbering
removal, smart-quote normalization — in the order of the source. -/
def normalizePre (t : List Char) : List Char :=
  let t1 := replaceL ("\r\n".toList) ("\n".toList) t
  let t2 := stripFencePairs t1
  let t3 := replaceL ("```hcl".toList) [] t2
  let t4 := replaceL ("```terraform".toList) [] t3
  let t5 := replaceL ("```".toList) [] t4
  let t6 := subBullets true t5
  let t7 := subNums true t6
  t7.map smartQuoteMap

/-- `clean_terraform_code` on character lists: normalize, cut at the
first anchor when one exists, then strip. -/
def cleanList (t : List Char) : List Char :=
  let u := normalizePre t
  match findAnchor u with
  | some i => pyStripL (u.drop i)
  | none => pyStripL u

/-- `clean_terraform_code(raw)` from `services/terraform_cleaner.py`
(for a non-`None` argument; `clean_terraform_code(None)` returns `""`
before any of these steps). -/
def clean_terraform_code (raw : String) : String :=
  String.mk (cleanList raw.toList)

/-!
### Data model shared by the executor and the stage callbacks

A stage result is the Python dict produced by a callback (see the
docstring of `execute_graph`): keys `stage`, `success`, `stdout`,
`stderr` are always present in the results this repository produces;
`tf`, `tf_code`, `detailed_exit_code` and `returncode` may be absent
(outer `none`), and a present `tf` / `tf_code` may hold Python `None`
(inner `none`).
-/

structure StageResult where
  stage : String
  success : Bool
  stdout : String
  stderr : String
  tf : Option (Option String)
  tf_code : Option (Option String)
  detailed_exit_code : Option Int
  returncode : Option Int
deriving DecidableEq, Repr

/-- The mutable execution context threaded through `execute_graph` and
the callbacks: key `tf` (absent or a string) and key `last_attempt`
(absent or `None` are equivalent everywhere the source reads it, both
modeled as `none`). -/
structure Context where
  tf : Option String
  last_attempt : Option StageResult
deriving DecidableEq, Repr

/-- A node dict of the graph: `id` (always read via `n["id"]`) and
`type` (read via `node.get("type", "unknown")`). -/
structure NodeDef where
  id : String
  ntype : Option String
deriving DecidableEq, Repr

/-- An edge dict: `from` is read via `e.get("from")`, `to` via `e["to"]`
(modeled as always present), `condition` via
`e.get("condition", "always")`. -/
structure Edge where
  src : Option String
  dst : String
  condition : Option String
deriving DecidableEq, Repr

/-- A graph dict with its `metadata` flattened:
`graph.get("metadata", {}).get("start")`,
`graph.get("metadata", {}).get("max_attempts")`,
`graph.get("nodes", [])` and `graph.get("edges", [])`. -/
structure Graph where
  start : Option String
  max_attempts : Option Int
  nodes : List NodeDef
  edges : List Edge
deriving DecidableEq, Repr

/-- The `ExecutionReport` dict returned by `execute_graph`; `visited` is
ghost instrumentation (not a key of the Python dict) recording the
lowercased type of every node whose callback was dispatched, in order,
so that node-visit counts can be stated. -/
structure Report where
  success : Bool
  attempts : List StageResult
  final_context : Context
  error : Option String
  visited : List String
deriving DecidableEq, Repr

/-!
### Graph executor (`services/langgraph.py`, `execute_graph`)
-/

/-- A stage callback: Python callbacks close over ambient mutable state
(Streamlit session state, the file system), modeled as a caller-chosen
world type `σ` threaded through the calls. -/
def Callback (σ : Type) : Type := σ → Context → StageResult × σ

/-- Node dictionary built by `{n["id"]: n for n in graph.get("nodes", [])}`
followed by `nodes[current]`: a duplicated id resolves to the node
declared last, hence the lookup on the reversed list. -/
def dictLookup (ns : List NodeDef) (i : String) : Option NodeDef :=
  ns.reverse.find? (fun n => n.id == i)

/-- `node.get("type", "unknown").lower()`. -/
def nodeTypeOf (n : NodeDef) : String := strLower (n.ntype.getD "unknown")

/-- Python `a or b` on an optional integer: `None` and `0` are falsy. -/
def pyOrInt (a : Option Int) (b : Int) : Int :=
  match a with
  | some x => if x = 0 then b else x
  | none => b

/-- `max_attempts = attempt_limit or graph.get("metadata", {}).get("max_attempts") or 3`. -/
def effectiveLimit (attempt_limit : Option Int) (graph_max : Option Int) : Int :=
  pyOrInt attempt_limit (pyOrInt graph_max 3)

/-- The effective attempt limit as the claim words it: the caller-supplied
`attempt_limit` when given, else the graph's declared `max_attempts`,
else the hard-coded default of 3 (no falsiness rule). -/
def claimEffectiveLimit (attempt_limit : Option Int) (graph_max : Option Int) : Int :=
  attempt_limit.getD (graph_max.getD 3)

/-- `start = graph.get("metadata", {}).get("start") or (graph["nodes"][0]["id"] if graph.get("nodes") else None)`:
a missing or empty-string metadata start falls back to the first declared
node's id; no nodes means no start. -/
def startOf (g : Graph) : Option String :=
  let fb : Option String := match g.nodes with
    | [] => none
    | n :: _ => some n.id
  match g.start with
  | some s => if s = "" then fb else some s
  | none => fb

/-- The `tf` normalization done by the executor right after a callback
returns: `if "tf" not in result and "tf_code" in result: result["tf"] = result.get("tf_code") or ""`. -/
def normalizeTf (r : StageResult) : StageResult :=
  match r.tf, r.tf_code with
  | none, some v => { r with tf := some (some (v.getD "")) }
  | _, _ => r

/-- The context merge done by the executor after appending the attempt:
`initial_context["last_attempt"] = result` and, when `result["tf"]` is a
present non-`None` value, `initial_context["tf"] = result["tf"]`. -/
def updateCtx (ctx : Context) (res : StageResult) : Context :=
  let c1 : Context := { ctx with last_attempt := some res }
  match res.tf with
  | some (some s) => { c1 with tf := some s }
  | _ => c1

/-- The routing loop of `execute_graph` (lines 184-200): scan `edges` in
order, skip edges whose `from` differs from the current node, take the
first whose condition matches (`always`; `success` when the result's
`success` is truthy; `failure` when it is not), lowercasing the
condition, which defaults to `"always"`. -/
def routeEdge : List Edge → String → Bool → Option String
  | [], _, _ => none
  | e :: es, current, succ =>
    if e.src ≠ some current then routeEdge es current succ
    else if strLower (e.condition.getD "always") = "always" then some e.dst
    else if strLower (e.condition.getD "always") = "success" ∧ succ = true then some e.dst
    else if strLower (e.condition.getD "always") = "failure" ∧ succ = false then some e.dst
    else routeEdge es current succ

/-- The condition test of one edge, as the spec words the routing rule. -/
def edgeCondMatches (succ : Bool) (e : Edge) : Bool :=
  let c := strLower (e.condition.getD "always")
  (c == "always") || (c == "success" && succ) || (c == "failure" && !succ)

/-- Routing as the spec words it: restrict the edge list, in declaration
order, to edges whose `from` equals the current node, and take the first
whose condition matches. -/
def routeSpec (edges : List Edge) (current : String) (succ : Bool) : Option String :=
  ((edges.filter (fun e => e.src == some current)).find? (edgeCondMatches succ)).map (fun e => e.dst)

/-- Error message literals of `execute_graph`. -/
def errStart : String := "Invalid graph start node"

def errBudget : String := "Max healing attempts reached"

def errMissingCb (t : String) : String :=
  "No callback registered for node type " ++ pyq ++ t ++ pyq

def errUnroutable (c : String) : String :=
  "No edge route matched from node " ++ pyq ++ c ++ pyq

/-- The loop state of `execute_graph`: current node id, the context, the
attempt log, the heal-cycle counter, the ghost visit log, and the
callbacks' world. -/
structure ExecState (σ : Type) where
  current : String
  ctx : Context
  attempts : List StageResult
  healCycles : Nat
  visited : List String
  world : σ

/-- Result of one iteration of the `while True` loop. -/
inductive StepOut (σ : Type) where
  | halt : Report → StepOut σ
  | next : ExecState σ → StepOut σ
  | raised : String → StepOut σ

/-- Outcome of a whole run under a fuel bound: a returned report, an
uncaught Python exception, or fuel exhaustion (the Python loop can run
forever on a non-healing cycle). -/
inductive Outcome where
  | report : Report → Outcome
  | raised : String → Outcome
  | fuelOut : Outcome
deriving DecidableEq, Repr

/-- One iteration of the `while True` loop of `execute_graph` (lines
149-208): look up the current node (`nodes[current]` raises `KeyError`
when a routed-to id is undeclared), return on an `end` node, fail on a
missing callback, dispatch the callback, normalize and log the result,
merge it into the context, bound healing, then route. -/
def execStep {σ : Type} (nodes : List NodeDef) (edges : List Edge)
    (cbs : String → Option (Callback σ)) (limit : Int) (st : ExecState σ) : StepOut σ :=
  match dictLookup nodes st.current with
  | none => .raised ("KeyError: " ++ pyq ++ st.current ++ pyq)
  | some node =>
    let nt := nodeTypeOf node
    if nt = "end" then
      .halt ⟨true, st.attempts, st.ctx, none, st.visited⟩
    else
      match cbs nt with
      | none => .halt ⟨false, st.attempts, st.ctx, some (errMissingCb nt), st.visited⟩
      | some f =>
        let out := f st.world st.ctx
        let res := normalizeTf out.1
        let attempts := st.attempts ++ [res]
        let ctx2 := updateCtx st.ctx res
        let visited := st.visited ++ [nt]
        let hc := if nt = "heal" then st.healCycles + 1 else st.healCycles
        if nt = "heal" ∧ limit ≤ (hc : Int) then
          .halt ⟨false, attempts, ctx2, some errBudget, visited⟩
        else
          match routeEdge edges st.current res.success with
          | some nxt => .next ⟨nxt, ctx2, attempts, hc, visited, out.2⟩
          | none => .halt ⟨false, attempts, ctx2, some (errUnroutable st.current), visited⟩

/-- The `while True` loop of `execute_graph`, fuel-bounded. -/
def execLoop {σ : Type} (nodes : List NodeDef) (edges : List Edge)
    (cbs : String → Option (Callback σ)) (limit : Int) : Nat → ExecState σ → Outcome
  | 0, _ => .fuelOut
  | fuel + 1, st =>
    match execStep nodes edges cbs limit st with
    | .halt r => .report r
    | .raised m => .raised m
    | .next st2 => execLoop nodes edges cbs limit fuel st2

/-- `execute_graph(region, graph, callbacks, initial_context, attempt_limit)`
from `services/langgraph.py` (the `region` argument is unused by the
source function and omitted).  Resolves the start node and the effective
attempt limit, validates the start, then runs the loop. -/
def execute_graph {σ : Type} (g : Graph) (cbs : String → Option (Callback σ))
    (initial_context : Context) (attempt_limit : Option Int) (w : σ) (fuel : Nat) : Outcome :=
  let limit := effectiveLimit attempt_limit g.max_attempts
  match startOf g with
  | none => .report ⟨false, [], initial_context, some errStart, []⟩
  | some s =>
    if s = "" ∨ ¬ g.nodes.any (fun n => n.id == s) then
      .report ⟨false, [], initial_context, some errStart, []⟩
    else
      execLoop g.nodes g.edges cbs limit fuel ⟨s, initial_context, [], 0, [], w⟩

/-- `build_default_terraform_graph()` from `services/langgraph.py`
(lines 71-101): the default self-healing workflow graph. -/
def build_default_terraform_graph : Graph :=
  { start := some "INIT"
    max_attempts := some 3
    nodes := [⟨"INIT", some "init"⟩, ⟨"PLAN", some "plan"⟩, ⟨"APPLY", some "apply"⟩,
              ⟨"HEAL", some "heal"⟩, ⟨"END", some "end"⟩]
    edges := [⟨some "INIT", "PLAN", some "always"⟩,
              ⟨some "PLAN", "APPLY", some "success"⟩,
              ⟨some "PLAN", "HEAL", some "failure"⟩,
              ⟨some "APPLY", "END", some "success"⟩,
              ⟨some "APPLY", "HEAL", some "failure"⟩,
              ⟨some "HEAL", "PLAN", some "always"⟩] }

/-!
### Stage callbacks and throttle controller (`services/terraform_exec.py`)

External processes are modeled by their observable output (`ProcOut`);
Streamlit session state relevant to init idempotency by `TfSession`; the
repair oracle by its raw response text.  Each callback additionally
reports ghost booleans/counters saying which external effects it
performed (process invocations, oracle calls, artifact overwrites).
-/

/-- Exit code, stdout and stderr of one `subprocess.run` invocation. -/
structure ProcOut where
  returncode : Int
  stdout : String
  stderr : String
deriving DecidableEq, Repr

/-- The throttling signatures `THROTTLE_PATTERNS` (lines 54-59). -/
def THROTTLE_PATTERNS : List String :=
  ["Throttling", "Rate exceeded", "RequestLimitExceeded", "TooManyRequests"]

/-- `MAX_HEALING_ATTEMPTS` (line 39). -/
def MAX_HEALING_ATTEMPTS : Int := 3

/-- `DEFAULT_PARALLELISM` (line 40). -/
def DEFAULT_PARALLELISM : Int := 20

/-- `maybe_reduce_parallelism(stderr)` (lines 69-77) acting on the
current `tf_parallelism` session value and returning the new one: on a
throttling signature with a current value above 10, set exactly 10;
otherwise leave the value unchanged. -/
def maybe_reduce_parallelism (stderr : String) (current : Int) : Int :=
  if stderr = "" then current
  else if THROTTLE_PATTERNS.any (fun p => containsSub p stderr) then
    if current > 10 then 10 else current
  else current

/-- `run_stage(cmd, cwd, env, stage_name, tf_code)` (lines 196-236),
applied to the observed process output: success is exit code 0; the raw
exit code is recorded under `returncode`. -/
def run_stage (p : ProcOut) (stage_name : String) (tf_code : String) : StageResult :=
  ⟨stage_name, decide (p.returncode = 0), p.stdout, p.stderr,
    some (some tf_code), none, none, some p.returncode⟩

/-- Convenience for the synthetic results the callbacks build literally:
dicts with keys `stage`, `success`, `stdout`, `stderr`, `tf`. -/
def mkResult (stage : String) (success : Bool) (stdout stderr tfv : String) : StageResult :=
  ⟨stage, success, stdout, stderr, some (some tfv), none, none, none⟩

/-- The two Streamlit session keys consulted by `init_cb`:
`terraform_init_done` and `terraform_last_tf_hash`. -/
structure TfSession where
  terraform_init_done : Bool
  terraform_last_tf_hash : Option String
deriving DecidableEq, Repr

/-- Result of `init_cb`: the stage result, the updated session state and
the number of external `terraform init` process invocations. -/
structure InitOut where
  result : StageResult
  session : TfSession
  externalCalls : Nat
deriving DecidableEq, Repr

/-- `init_cb(context)` (lines 255-311), parameterized by the content
hash function `_content_hash` and by the outputs the external process
would produce for the fast path and for the writable-lockfile retry.
Skips when the workspace is initialized and the hash is unchanged;
otherwise runs init, retries once on the provider-dependency failure
signatures, and on success records the new hash and the done flag. -/
def init_cb (content_hash : String → String) (fastProc retryProc : ProcOut)
    (sess : TfSession) (context : Context) : InitOut :=
  let tf_code := context.tf.getD ""
  let code_hash := content_hash tf_code
  if sess.terraform_init_done = true ∧ sess.terraform_last_tf_hash = some code_hash then
    ⟨mkResult "init" true "Init skipped (cached)." "" tf_code, sess, 0⟩
  else
    let res := run_stage fastProc "init" tf_code
    let needs_writable_lock :=
      containsSub "Provider dependency changes detected" res.stderr ||
      containsSub "lock file is read-only" res.stderr
    let retried : StageResult × Nat :=
      if res.success = false ∧ needs_writable_lock = true then
        (run_stage retryProc "init (retry)" tf_code, 2)
      else (res, 1)
    let sess2 : TfSession :=
      if retried.1.success = true then ⟨true, some code_hash⟩ else sess
    ⟨retried.1, sess2, retried.2⟩

/-- `plan_cb(context)` (lines 313-343), parameterized by the observed
process output: runs plan, then reinterprets the detailed exit code
(0 = success/no changes, 2 = success/changes present, else failure) and
records it under `detailed_exit_code`. -/
def plan_cb (p : ProcOut) (context : Context) : StageResult :=
  let tf_code := context.tf.getD ""
  let res := run_stage p "plan" tf_code
  let res2 := if p.returncode = 0 ∨ p.returncode = 2 then { res with success := true } else res
  { res2 with detailed_exit_code := some p.returncode }

/-- Result of `apply_cb`: the stage result, whether the external apply
process was invoked, and whether the micro-plan was invoked. -/
structure ApplyOut where
  result : StageResult
  applyCalled : Bool
  microPlanCalled : Bool
deriving DecidableEq, Repr

/-- `apply_cb(context)` (lines 345-401), parameterized by the session
`fast_mode` flag and by the outputs of the (potential) micro-plan and
apply processes.  Skips apply (synthetic success, no process) when the
immediately preceding attempt is a plan whose detailed exit code is 0;
with no preceding plan and fast mode on, runs a micro-plan first and
fails fast or skips accordingly; otherwise applies. -/
def apply_cb (fast_mode : Bool) (microProc applyProc : ProcOut) (context : Context) : ApplyOut :=
  let tf_code := context.tf.getD ""
  let lastStage : Option String := match context.last_attempt with
    | some r => some r.stage
    | none => none
  let lastDec : Option Int := match context.last_attempt with
    | some r => r.detailed_exit_code
    | none => none
  if lastStage = some "plan" then
    if lastDec = some 0 then
      ⟨mkResult "apply" true "Apply skipped (no changes detected)." "" tf_code, false, false⟩
    else
      ⟨run_stage applyProc "apply" tf_code, true, false⟩
  else if fast_mode = true then
    let micro := plan_cb microProc ⟨some tf_code, none⟩
    if micro.success = false then
      ⟨⟨"apply", false, micro.stdout, micro.stderr, some (some tf_code), none, none, none⟩,
        false, true⟩
    else if micro.detailed_exit_code = some 0 then
      ⟨mkResult "apply" true "Apply skipped (no changes)." "" tf_code, false, true⟩
    else
      ⟨run_stage applyProc "apply" tf_code, true, true⟩
  else
    ⟨run_stage applyProc "apply" tf_code, true, false⟩

/-- Result of `heal_cb`: the stage result, whether the repair oracle was
called, and whether the workspace artifact was overwritten (`write_tf`). -/
structure HealOut where
  result : StageResult
  oracleCalled : Bool
  wroteArtifact : Bool
deriving DecidableEq, Repr

/-- `heal_cb(context)` (lines 403-471), parameterized by the raw oracle
response.  No-op success when the previous attempt succeeded (a missing
or `None` `last_attempt` reads as success via
`last_attempt.get("success", True)`); otherwise the response is cleaned,
and when the cleaned code equals the current one up to stripping, an
explicit no-op heal result is returned without overwriting the
artifact. -/
def heal_cb (oracleResponse : String) (context : Context) : HealOut :=
  let tf_code := context.tf.getD ""
  let lastSuccess : Bool := match context.last_attempt with
    | some r => r.success
    | none => true
  if lastSuccess = true then
    ⟨mkResult "heal" true "No healing needed (last stage succeeded)." "" tf_code, false, false⟩
  else
    let cleaned := clean_terraform_code oracleResponse
    if pyStrip cleaned = pyStrip tf_code then
      ⟨mkResult "heal" true "Healing produced identical code; skipping." "" tf_code, true, false⟩
    else
      ⟨mkResult "heal" true "Terraform code healed by Claude" "" cleaned, true, true⟩

/-!
### Claim theorems
-/

theorem findSub_bound (pat : List Char) :
    ∀ (s : List Char) (i : Nat), findSub pat s = some i → pat.length + i ≤ s.length := by
  intro s
  induction s with
  | nil =>
    intro i h
    simp only [findSub] at h
    split at h
    · rename_i hp
      have : pat = [] := by
        cases pat with
        | nil => rfl
        | cons a l => simp [List.isPrefixOf] at hp
      cases h
      simp [this]
    · cases h
  | cons c rest ih =>
    intro i h
    simp only [findSub] at h
    split at h
    · rename_i hp
      cases h
      have := List.IsPrefix.length_le (List.isPrefixOf_iff_prefix.mp hp)
      simpa using this
    · cases hr : findSub pat rest with
      | none => rw [hr] at h; cases h
      | some j =>
        rw [hr] at h
        simp only [Option.map_some'] at h
        cases h
        have := ih j hr
        simp only [List.length_cons]
        omega

theorem length_dropWhile_le (p : Char → Bool) (l : List Char) :
    (l.dropWhile p).length ≤ l.length :=
  (List.dropWhile_suffix p).sublist.length_le

theorem matchBulletAt_lt (s : List Char) (p : List Char × Bool)
    (h : matchBulletAt s = some p) : p.1.length < s.length := by
  have hd : (s.dropWhile pyWs).length ≤ s.length := length_dropWhile_le pyWs s
  unfold matchBulletAt at h
  split at h
  · cases h
  · rename_i c rest hw
    split at h
    · simp only [] at h
      split at h
      · cases h
      · cases h
        have h1 : (rest.dropWhile pyWs).length ≤ rest.length := length_dropWhile_le pyWs rest
        have h2 : (c :: rest).length ≤ s.length := by rw [← hw]; exact hd
        simp only [List.length_cons] at h2
        simpa using Nat.lt_of_le_of_lt h1 (Nat.lt_of_lt_of_le (Nat.lt_succ_self _) h2)
    · cases h

theorem matchNumAt_lt (s : List Char) (p : List Char × Bool)
    (h : matchNumAt s = some p) : p.1.length < s.length := by
  have hd : (s.dropWhile pyWs).length ≤ s.length := length_dropWhile_le pyWs s
  have hd2 : ((s.dropWhile pyWs).dropWhile Char.isDigit).length ≤ (s.dropWhile pyWs).length :=
    length_dropWhile_le Char.isDigit (s.dropWhile pyWs)
  unfold matchNumAt at h
  simp only [] at h
  split at h
  · cases h
  · split at h
    · cases h
    · rename_i c rest hw
      split at h
      · split at h
        · cases h
        · cases h
          have h1 : (rest.dropWhile pyWs).length ≤ rest.length := length_dropWhile_le pyWs rest
          have h2 : (c :: rest).length ≤ s.length := by
            rw [← hw]; exact Nat.le_trans hd2 hd
          simp only [List.length_cons] at h2
          simpa using Nat.lt_of_le_of_lt h1 (Nat.lt_of_lt_of_le (Nat.lt_succ_self _) h2)
      · cases h

theorem findAnchor_some_anchorAt :
    ∀ (t : List Char) (i : Nat), findAnchor t = some i → anchorAt (t.drop i) = true := by
  intro t
  induction t with
  | nil => intro i h; cases h
  | cons c rest ih =>
    intro i h
    unfold findAnchor at h
    split at h
    · rename_i ha
      cases h
      simpa using ha
    · cases hr : findAnchor rest with
      | none => rw [hr] at h; cases h
      | some j =>
        rw [hr] at h
        simp only [Option.map_some'] at h
        cases h
        simpa using ih j hr

theorem findAnchor_minimal :
    ∀ (t : List Char) (i : Nat), findAnchor t = some i →
      ∀ j, j < i → anchorAt (t.drop j) = false := by
  intro t
  induction t with
  | nil => intro i h; cases h
  | cons c rest ih =>
    intro i h j hj
    unfold findAnchor at h
    split at h
    · cases h; omega
    · rename_i ha
      cases hr : findAnchor rest with
      | none => rw [hr] at h; cases h
      | some k =>
        rw [hr] at h
        simp only [Option.map_some'] at h
        cases h
        cases j with
        | zero => simpa using ha
        | succ j2 =>
          have := ih k hr j2 (by omega)
          simpa using this

/-- C4: For every plan invocation, the produced StageResult has
`success=true` exactly when the external process exit code is 0 (no
changes) or 2 (changes present), has `success=false` for any other exit
code, and records the raw exit code in `detailed_exit_code` so
downstream stages can distinguish no-change from changes-pending. -/
theorem c4_plan_tri_state (p : ProcOut) (context : Context) :
    ((plan_cb p context).success = true ↔ (p.returncode = 0 ∨ p.returncode = 2)) ∧
    (plan_cb p context).detailed_exit_code = some p.returncode := by
  unfold plan_cb run_stage
  by_cases h : p.returncode = 0 ∨ p.returncode = 2 <;> simp [h]
  intro h0
  exact h (Or.inl h0)

/-- C8: The throttle observation never increases the parallelism hint:
when the stderr text contains one of the fixed rate-limit substrings and
the current hint exceeds the floor of 10, the hint becomes exactly 10;
in every other case it is unchanged; hence across any sequence of
observations the hint is monotonically non-increasing and never
auto-increases. -/
theorem c8_throttle_monotone :
    (∀ (stderr : String) (current : Int),
      maybe_reduce_parallelism stderr current =
        (if (THROTTLE_PATTERNS.any (fun p => containsSub p stderr)) = true ∧ 10 < current
         then 10 else current) ∧
      maybe_reduce_parallelism stderr current ≤ current) ∧
    (∀ (l : List String) (current : Int),
      l.foldl (fun h s => maybe_reduce_parallelism s h) current ≤ current) := by
  have hchar : ∀ (stderr : String) (current : Int),
      maybe_reduce_parallelism stderr current =
        (if (THROTTLE_PATTERNS.any (fun p => containsSub p stderr)) = true ∧ 10 < current
         then 10 else current) := by
    intro stderr current
    unfold maybe_reduce_parallelism
    by_cases he : stderr = ""
    · subst he
      have : THROTTLE_PATTERNS.any (fun p => containsSub p "") = false := by decide
      simp [this]
    · simp only [if_neg he]
      by_cases hp : THROTTLE_PATTERNS.any (fun p => containsSub p stderr) = true
      · by_cases hc : 10 < current
        · simp [hp, hc]
        · simp [hp, hc]
      · simp [hp]
  have hle : ∀ (stderr : String) (current : Int),
      maybe_reduce_parallelism stderr current ≤ current := by
    intro stderr current
    rw [hchar stderr current]
    split
    · rename_i hcond
      omega
    · exact le_refl current
  refine ⟨fun stderr current => ⟨hchar stderr current, hle stderr current⟩, ?_⟩
  intro l
  induction l with
  | nil => intro current; simp
  | cons s rest ih =>
    intro current
    calc rest.foldl (fun h s => maybe_reduce_parallelism s h) (maybe_reduce_parallelism s current)
        ≤ maybe_reduce_parallelism s current := ih _
      _ ≤ current := hle s current

/-- C10: When the execution context carries no previous attempt (the
`last_attempt` key absent or `None`), `heal_cb` returns a synthetic
success result without calling the repair oracle and without modifying
the artifact; a missing previous attempt is treated exactly like a
successful one. -/
theorem c10_heal_missing_last_attempt (oracleResponse : String) (tf : Option String) :
    (heal_cb oracleResponse ⟨tf, none⟩ =
      ⟨mkResult "heal" true "No healing needed (last stage succeeded)." "" (tf.getD ""),
        false, false⟩) ∧
    (∀ la : StageResult, la.success = true →
      heal_cb oracleResponse ⟨tf, some la⟩ = heal_cb oracleResponse ⟨tf, none⟩) := by
  constructor
  · unfold heal_cb
    simp
  · intro la hla
    unfold heal_cb
    simp [hla]

/-- Witness for `c10_heal_missing_last_attempt` at a concrete context. -/
theorem c10_witness :
    heal_cb "resp" ⟨some "code", some (mkResult "plan" true "out" "" "code")⟩ =
      heal_cb "resp" ⟨some "code", none⟩ :=
  (c10_heal_missing_last_attempt "resp" (some "code")).2 (mkResult "plan" true "out" "" "code") rfl

/-- C7: When the previous attempt failed and the repair oracle's cleaned
output is byte-for-byte identical to the current artifact, `heal_cb`
returns `success=true` with the artifact unchanged (the explicit no-op
heal result) and does not overwrite the workspace artifact. -/
theorem c7_heal_identical_noop (oracleResponse : String) (context : Context) (la : StageResult)
    (h1 : context.last_attempt = some la) (h2 : la.success = false)
    (h3 : clean_terraform_code oracleResponse = context.tf.getD "") :
    heal_cb oracleResponse context =
      ⟨mkResult "heal" true "Healing produced identical code; skipping." ""
        (context.tf.getD ""), true, false⟩ := by
  unfold heal_cb
  rw [h1, h3]
  simp [h2]

/-- Witness for `c7_heal_identical_noop`: a failed plan attempt and an
oracle response whose cleaned form equals the current artifact. -/
theorem c7_witness :
    heal_cb "terraform \x7b" ⟨some "terraform \x7b", some (mkResult "plan" false "" "err" "terraform \x7b")⟩ =
      ⟨mkResult "heal" true "Healing produced identical code; skipping." "" "terraform \x7b",
        true, false⟩ :=
  c7_heal_identical_noop "terraform \x7b"
    ⟨some "terraform \x7b", some (mkResult "plan" false "" "err" "terraform \x7b")⟩
    (mkResult "plan" false "" "err" "terraform \x7b") rfl rfl (by decide)

/-- C6: Whenever the immediately preceding attempt in the execution
context is a plan result whose detailed exit code is 0 (no changes),
`apply_cb` returns a synthetic success StageResult without invoking the
external apply process. -/
theorem c6_apply_skip_on_no_changes (fast_mode : Bool) (microProc applyProc : ProcOut)
    (context : Context) (la : StageResult)
    (h1 : context.last_attempt = some la) (h2 : la.stage = "plan")
    (h3 : la.detailed_exit_code = some 0) :
    apply_cb fast_mode microProc applyProc context =
      ⟨mkResult "apply" true "Apply skipped (no changes detected)." "" (context.tf.getD ""),
        false, false⟩ := by
  unfold apply_cb
  rw [h1]
  simp [h2, h3]

/-- Witness for `c6_apply_skip_on_no_changes` at a concrete context. -/
theorem c6_witness :
    apply_cb true ⟨0, "", ""⟩ ⟨1, "", "boom"⟩
      ⟨some "code", some ({ mkResult "plan" true "" "" "code" with detailed_exit_code := some 0 })⟩ =
      ⟨mkResult "apply" true "Apply skipped (no changes detected)." "" "code", false, false⟩ :=
  c6_apply_skip_on_no_changes true ⟨0, "", ""⟩ ⟨1, "", "boom"⟩
    ⟨some "code", some ({ mkResult "plan" true "" "" "code" with detailed_exit_code := some 0 })⟩
    ({ mkResult "plan" true "" "" "code" with detailed_exit_code := some 0 }) rfl rfl rfl

/-- Helper: the cached-skip branch of `init_cb` (lines 264-272). -/
theorem init_cb_skip (content_hash : String → String) (fastProc retryProc : ProcOut)
    (sess : TfSession) (context : Context)
    (h1 : sess.terraform_init_done = true)
    (h2 : sess.terraform_last_tf_hash = some (content_hash (context.tf.getD ""))) :
    init_cb content_hash fastProc retryProc sess context =
      ⟨mkResult "init" true "Init skipped (cached)." "" (context.tf.getD ""), sess, 0⟩ := by
  unfold init_cb
  simp [h1, h2]

/-- Helper: when `init_cb` reports success, the resulting session always
satisfies the cached-skip condition for the same artifact. -/
theorem init_cb_success_session (content_hash : String → String) (fastProc retryProc : ProcOut)
    (sess : TfSession) (context : Context)
    (hs : (init_cb content_hash fastProc retryProc sess context).result.success = true) :
    (init_cb content_hash fastProc retryProc sess context).session.terraform_init_done = true ∧
    (init_cb content_hash fastProc retryProc sess context).session.terraform_last_tf_hash =
      some (content_hash (context.tf.getD "")) := by
  unfold init_cb at hs ⊢
  by_cases hskip : sess.terraform_init_done = true ∧
      sess.terraform_last_tf_hash = some (content_hash (context.tf.getD ""))
  · simp only [if_pos hskip] at hs ⊢
    exact ⟨hskip.1, hskip.2⟩
  · simp only [if_neg hskip] at hs ⊢
    rw [if_pos hs]
    exact ⟨rfl, rfl⟩

/-- C5: If a prior init success has been recorded and the content hash
of the current artifact equals the recorded hash, `init_cb` returns a
synthetic success without invoking the external process; hence calling
init twice in a row with an unchanged artifact after a recorded success
never runs the external process the second time. -/
theorem c5_init_idempotent (content_hash : String → String) (f1 r1 f2 r2 : ProcOut)
    (sess : TfSession) (context : Context) :
    (sess.terraform_init_done = true →
     sess.terraform_last_tf_hash = some (content_hash (context.tf.getD "")) →
      init_cb content_hash f1 r1 sess context =
        ⟨mkResult "init" true "Init skipped (cached)." "" (context.tf.getD ""), sess, 0⟩) ∧
    ((init_cb content_hash f1 r1 sess context).result.success = true →
      (init_cb content_hash f2 r2
        (init_cb content_hash f1 r1 sess context).session context).externalCalls = 0) := by
  constructor
  · intro h1 h2
    exact init_cb_skip content_hash f1 r1 sess context h1 h2
  · intro hs
    have h12 := init_cb_success_session content_hash f1 r1 sess context hs
    rw [init_cb_skip content_hash f2 r2 _ context h12.1 h12.2]

/-- Witness for `c5_init_idempotent`: a cached session skips (first
conjunct), and after a successful fresh init the second call makes no
external invocation (second conjunct). -/
theorem c5_witness :
    (init_cb (fun s => s) ⟨0, "", ""⟩ ⟨0, "", ""⟩ ⟨true, some "code"⟩ ⟨some "code", none⟩ =
      ⟨mkResult "init" true "Init skipped (cached)." "" "code", ⟨true, some "code"⟩, 0⟩) ∧
    (init_cb (fun s => s) ⟨0, "", ""⟩ ⟨0, "", ""⟩
      (init_cb (fun s => s) ⟨0, "", ""⟩ ⟨0, "", ""⟩ ⟨false, none⟩ ⟨some "code", none⟩).session
      ⟨some "code", none⟩).externalCalls = 0 :=
  ⟨(c5_init_idempotent (fun s => s) ⟨0, "", ""⟩ ⟨0, "", ""⟩ ⟨0, "", ""⟩ ⟨0, "", ""⟩
      ⟨true, some "code"⟩ ⟨some "code", none⟩).1 rfl rfl,
   (c5_init_idempotent (fun s => s) ⟨0, "", ""⟩ ⟨0, "", ""⟩ ⟨0, "", ""⟩ ⟨0, "", ""⟩
      ⟨false, none⟩ ⟨some "code", none⟩).2 (by decide)⟩

/-- C9 (amended): `clean_terraform_code` first normalizes the text
(CRLF, fence, bullet/numbering and smart-quote handling); it then
discards everything before the first artifact-anchor token of the
normalized text and strips, so when an anchor is present the result is
the stripped suffix starting at the leftmost anchor match; when no
anchor is found in the normalized text, the stripped normalized text —
not the stripped input — is returned. -/
theorem c9_clean_anchor_structure (raw : String) :
    (findAnchor (normalizePre raw.toList) = none →
      clean_terraform_code raw = String.mk (pyStripL (normalizePre raw.toList))) ∧
    (∀ i, findAnchor (normalizePre raw.toList) = some i →
      clean_terraform_code raw = String.mk (pyStripL ((normalizePre raw.toList).drop i)) ∧
      anchorAt ((normalizePre raw.toList).drop i) = true ∧
      ∀ j, j < i → anchorAt ((normalizePre raw.toList).drop j) = false) := by
  constructor
  · intro h
    simp only [clean_terraform_code, cleanList]
    rw [h]
  · intro i h
    refine ⟨?_, findAnchor_some_anchorAt _ i h, findAnchor_minimal _ i h⟩
    simp only [clean_terraform_code, cleanList]
    rw [h]

/-- Witness for `c9_clean_anchor_structure`: on `"x terraform {"` the
anchor is found at index 2 of the normalized text and the cleaner
returns the text from the anchor on. -/
theorem c9_witness :
    clean_terraform_code "x terraform \x7b" =
      String.mk (pyStripL ((normalizePre "x terraform \x7b".toList).drop 2)) ∧
    anchorAt ((normalizePre "x terraform \x7b".toList).drop 2) = true :=
  ⟨((c9_clean_anchor_structure "x terraform \x7b").2 2 (by decide)).1,
   ((c9_clean_anchor_structure "x terraform \x7b").2 2 (by decide)).2.1⟩

/-- C9 counterexample: the claim says that when no anchor token is found
the trimmed input text is returned unchanged; but on `"- hello"` (no
anchor anywhere) the cleaner returns `"hello"` — the bullet-stripped
normalized text — while the trimmed input is `"- hello"`. -/
theorem c9_counterexample :
    findAnchor ("- hello".toList) = none ∧
    findAnchor (normalizePre "- hello".toList) = none ∧
    clean_terraform_code "- hello" = "hello" ∧
    pyStrip "- hello" = "- hello" ∧
    clean_terraform_code "- hello" ≠ pyStrip "- hello" := by
  refine ⟨by decide, by decide, by decide, by decide, by decide⟩

/-- Helper: an edge from the current node is taken exactly when its
condition matches, else scanning continues. -/
theorem routeEdge_cons_src (e : Edge) (es : List Edge) (current : String) (succ : Bool)
    (hsrc : e.src = some current) :
    routeEdge (e :: es) current succ =
      if edgeCondMatches succ e = true then some e.dst else routeEdge es current succ := by
  simp only [routeEdge, hsrc, ne_eq, not_true_eq_false, if_false, edgeCondMatches]
  by_cases ha : strLower (e.condition.getD "always") = "always"
  · simp [ha]
  · by_cases hs : strLower (e.condition.getD "always") = "success"
    · cases succ <;> simp [ha, hs]
    · by_cases hf : strLower (e.condition.getD "always") = "failure"
      · cases succ <;> simp [ha, hs, hf]
      · simp [ha, hs, hf]

/-- Helper: an edge from another node is skipped. -/
theorem routeEdge_cons_other (e : Edge) (es : List Edge) (current : String) (succ : Bool)
    (hsrc : ¬ e.src = some current) :
    routeEdge (e :: es) current succ = routeEdge es current succ := by
  simp only [routeEdge, ne_eq, hsrc, not_false_eq_true, if_true]

/-- Helper: the routing loop of the source equals the spec's
filter-then-first-match description. -/
theorem routeEdge_eq_routeSpec (edges : List Edge) (current : String) (succ : Bool) :
    routeEdge edges current succ = routeSpec edges current succ := by
  induction edges with
  | nil => rfl
  | cons e es ih =>
    by_cases hsrc : e.src = some current
    · rw [routeEdge_cons_src e es current succ hsrc]
      unfold routeSpec
      have hb : (e.src == some current) = true := by simp [hsrc]
      rw [List.filter_cons, if_pos hb, List.find?_cons]
      by_cases hm : edgeCondMatches succ e = true
      · simp [hm]
      · simp only [hm, Bool.false_eq_true, if_false]
        rw [ih]
        rfl
    · rw [routeEdge_cons_other e es current succ hsrc]
      unfold routeSpec
      have hb : (e.src == some current) = false := by simp [hsrc]
      rw [List.filter_cons, hb]
      simp only [Bool.false_eq_true, if_false]
      exact ih

/-- Helper: when a dispatched node's result matches no edge, the step
halts with the unroutable-state report. -/
theorem execStep_unroutable {σ : Type} (nodes : List NodeDef) (edges : List Edge)
    (cbs : String → Option (Callback σ)) (limit : Int) (st : ExecState σ)
    (node : NodeDef) (f : Callback σ)
    (hlook : dictLookup nodes st.current = some node)
    (hend : ¬ nodeTypeOf node = "end")
    (hcb : cbs (nodeTypeOf node) = some f)
    (hbudget : ¬ (nodeTypeOf node = "heal" ∧ limit ≤ ((st.healCycles + 1 : Nat) : Int)))
    (hroute : routeEdge edges st.current (normalizeTf (f st.world st.ctx).1).success = none) :
    execStep nodes edges cbs limit st =
      .halt ⟨false, st.attempts ++ [normalizeTf (f st.world st.ctx).1],
              updateCtx st.ctx (normalizeTf (f st.world st.ctx).1),
              some (errUnroutable st.current),
              st.visited ++ [nodeTypeOf node]⟩ := by
  unfold execStep
  rw [hlook]
  simp only [if_neg hend, hcb]
  by_cases hheal : nodeTypeOf node = "heal"
  · have hlim : ¬ limit ≤ ((st.healCycles + 1 : Nat) : Int) := fun hl => hbudget ⟨hheal, hl⟩
    simp only [hheal, if_pos rfl, if_true]
    rw [if_neg (by simpa using hlim)]
    rw [hroute]
  · rw [if_neg (by simp [hheal] : ¬ (nodeTypeOf node = "heal" ∧
      limit ≤ ((if nodeTypeOf node = "heal" then st.healCycles + 1 else st.healCycles : Nat) : Int)))]
    rw [hroute]

/-- C2: At every routing step, the executor scans the edge list in
declaration order restricted to edges whose `from` equals the current
node and advances along the first edge whose condition matches
(`always` unconditionally, `success` exactly when the last result's
`success` is true, `failure` exactly when it is false); when no edge
matches, the step terminates the run with `success=false` and the
unroutable-state error; and for a node declaring both an `always` and a
`success` edge, the earlier-declared edge wins. -/
theorem c2_routing_first_match :
    (∀ (edges : List Edge) (current : String) (succ : Bool),
        routeEdge edges current succ = routeSpec edges current succ) ∧
    (∀ (σ : Type) (nodes : List NodeDef) (edges : List Edge)
        (cbs : String → Option (Callback σ)) (limit : Int) (st : ExecState σ)
        (node : NodeDef) (f : Callback σ),
        dictLookup nodes st.current = some node →
        ¬ nodeTypeOf node = "end" →
        cbs (nodeTypeOf node) = some f →
        ¬ (nodeTypeOf node = "heal" ∧ limit ≤ ((st.healCycles + 1 : Nat) : Int)) →
        routeEdge edges st.current (normalizeTf (f st.world st.ctx).1).success = none →
        execStep nodes edges cbs limit st =
          .halt ⟨false, st.attempts ++ [normalizeTf (f st.world st.ctx).1],
                  updateCtx st.ctx (normalizeTf (f st.world st.ctx).1),
                  some (errUnroutable st.current),
                  st.visited ++ [nodeTypeOf node]⟩) ∧
    (routeEdge [⟨some "A", "B", some "always"⟩, ⟨some "A", "C", some "success"⟩] "A" true =
        some "B" ∧
     routeEdge [⟨some "A", "C", some "success"⟩, ⟨some "A", "B", some "always"⟩] "A" true =
        some "C") :=
  ⟨routeEdge_eq_routeSpec,
   fun _ nodes edges cbs limit st node f hlook hend hcb hbudget hroute =>
     execStep_unroutable nodes edges cbs limit st node f hlook hend hcb hbudget hroute,
   by decide, by decide⟩

/-- Witness for `c2_routing_first_match`: a one-node graph with no
edges halts with the unroutable-state report. -/
theorem c2_witness :
    execStep (σ := Unit) [⟨"A", some "plan"⟩] []
      (fun t => if t = "plan" then some (fun w _ => (mkResult "plan" true "ok" "" "x", w)) else none)
      3 ⟨"A", ⟨none, none⟩, [], 0, [], ()⟩ =
      .halt ⟨false, [normalizeTf (mkResult "plan" true "ok" "" "x")],
              updateCtx ⟨none, none⟩ (normalizeTf (mkResult "plan" true "ok" "" "x")),
              some (errUnroutable "A"), ["plan"]⟩ :=
  c2_routing_first_match.2.1 Unit [⟨"A", some "plan"⟩] []
    (fun t => if t = "plan" then some (fun w _ => (mkResult "plan" true "ok" "" "x", w)) else none)
    3 ⟨"A", ⟨none, none⟩, [], 0, [], ()⟩ ⟨"A", some "plan"⟩
    (fun w _ => (mkResult "plan" true "ok" "" "x", w))
    rfl (by decide) rfl (by decide) rfl

/-- Helper: `[nt]` contains `"heal"` once when `nt` is `"heal"`, else
not at all. -/
theorem count_heal_singleton (nt : String) :
    ([nt] : List String).count "heal" = if nt = "heal" then 1 else 0 := by
  by_cases h : nt = "heal" <;> simp [List.count_cons, h]

/-- Helper: a loop iteration that continues appends exactly one visit;
the heal counter grows by one on a heal visit (and the budget check has
then passed), else stays. -/
theorem execStep_next_inv {σ : Type} (nodes : List NodeDef) (edges : List Edge)
    (cbs : String → Option (Callback σ)) (limit : Int) (st st2 : ExecState σ)
    (h : execStep nodes edges cbs limit st = .next st2) :
    ∃ nt, st2.visited = st.visited ++ [nt] ∧
      ((nt = "heal" ∧ st2.healCycles = st.healCycles + 1 ∧
          ((st.healCycles + 1 : Nat) : Int) < limit) ∨
       (¬ nt = "heal" ∧ st2.healCycles = st.healCycles)) := by
  unfold execStep at h
  cases hlook : dictLookup nodes st.current with
  | none => rw [hlook] at h; cases h
  | some node =>
    rw [hlook] at h
    simp only [] at h
    by_cases hend : nodeTypeOf node = "end"
    · rw [if_pos hend] at h; cases h
    · rw [if_neg hend] at h
      cases hcb : cbs (nodeTypeOf node) with
      | none => rw [hcb] at h; cases h
      | some f =>
        rw [hcb] at h
        simp only [] at h
        by_cases hbud : nodeTypeOf node = "heal" ∧
            limit ≤ ((if nodeTypeOf node = "heal" then st.healCycles + 1 else st.healCycles : Nat) : Int)
        · rw [if_pos hbud] at h; cases h
        · rw [if_neg hbud] at h
          cases hroute : routeEdge edges st.current (normalizeTf (f st.world st.ctx).1).success with
          | none => rw [hroute] at h; cases h
          | some nxt =>
            rw [hroute] at h
            cases h
            refine ⟨nodeTypeOf node, rfl, ?_⟩
            by_cases hheal : nodeTypeOf node = "heal"
            · left
              refine ⟨hheal, by simp [hheal], ?_⟩
              have : ¬ limit ≤ ((if nodeTypeOf node = "heal" then st.healCycles + 1 else st.healCycles : Nat) : Int) :=
                fun hle => hbud ⟨hheal, hle⟩
              rw [if_pos hheal] at this
              omega
            · right
              exact ⟨hheal, by simp [hheal]⟩

/-- Helper: a loop iteration that halts either returns before
dispatching (end node, missing callback: no new visit), stops on the
healing budget (one heal visit, `success=false`, the budget error), or
stops unroutable after a visit that respected the budget. -/
theorem execStep_halt_inv {σ : Type} (nodes : List NodeDef) (edges : List Edge)
    (cbs : String → Option (Callback σ)) (limit : Int) (st : ExecState σ) (r : Report)
    (h : execStep nodes edges cbs limit st = .halt r) :
    (r.visited = st.visited) ∨
    (r.visited = st.visited ++ ["heal"] ∧ limit ≤ ((st.healCycles + 1 : Nat) : Int) ∧
      r.success = false ∧ r.error = some errBudget) ∨
    (∃ nt, r.visited = st.visited ++ [nt] ∧
      (nt = "heal" → ((st.healCycles + 1 : Nat) : Int) < limit)) := by
  unfold execStep at h
  cases hlook : dictLookup nodes st.current with
  | none => rw [hlook] at h; cases h
  | some node =>
    rw [hlook] at h
    simp only [] at h
    by_cases hend : nodeTypeOf node = "end"
    · rw [if_pos hend] at h
      cases h
      exact Or.inl rfl
    · rw [if_neg hend] at h
      cases hcb : cbs (nodeTypeOf node) with
      | none =>
        rw [hcb] at h
        cases h
        exact Or.inl rfl
      | some f =>
        rw [hcb] at h
        simp only [] at h
        by_cases hbud : nodeTypeOf node = "heal" ∧
            limit ≤ ((if nodeTypeOf node = "heal" then st.healCycles + 1 else st.healCycles : Nat) : Int)
        · rw [if_pos hbud] at h
          cases h
          refine Or.inr (Or.inl ⟨by rw [hbud.1], ?_, rfl, rfl⟩)
          have := hbud.2
          rw [if_pos hbud.1] at this
          exact this
        · rw [if_neg hbud] at h
          cases hroute : routeEdge edges st.current (normalizeTf (f st.world st.ctx).1).success with
          | some nxt => rw [hroute] at h; cases h
          | none =>
            rw [hroute] at h
            cases h
            refine Or.inr (Or.inr ⟨nodeTypeOf node, rfl, fun hheal => ?_⟩)
            have : ¬ limit ≤ ((if nodeTypeOf node = "heal" then st.healCycles + 1 else st.healCycles : Nat) : Int) :=
              fun hle => hbud ⟨hheal, hle⟩
            rw [if_pos hheal] at this
            omega

/-- Helper: along any terminating loop run whose state satisfies the
visit-count invariant and whose heal counter is still under the limit,
the final report's heal-visit count stays within the limit, and
reaching the limit exactly means the run stopped on the budget error. -/
theorem execLoop_heal_bound {σ : Type} (nodes : List NodeDef) (edges : List Edge)
    (cbs : String → Option (Callback σ)) (limit : Int) :
    ∀ (fuel : Nat) (st : ExecState σ) (r : Report),
      execLoop nodes edges cbs limit fuel st = .report r →
      st.visited.count "heal" = st.healCycles →
      (st.healCycles : Int) < limit →
      ((r.visited.count "heal" : Int) ≤ limit ∧
       ((r.visited.count "heal" : Int) = limit → r.success = false ∧ r.error = some errBudget)) := by
  intro fuel
  induction fuel with
  | zero => intro st r h; cases h
  | succ fuel ih =>
    intro st r h hinv hlt
    rw [execLoop] at h
    cases hstep : execStep nodes edges cbs limit st with
    | raised m => rw [hstep] at h; cases h
    | next st2 =>
      rw [hstep] at h
      simp only [] at h
      obtain ⟨nt, hv, hcase⟩ := execStep_next_inv nodes edges cbs limit st st2 hstep
      rcases hcase with ⟨hheal, hc, hlim⟩ | ⟨hheal, hc⟩
      · have hinv2 : st2.visited.count "heal" = st2.healCycles := by
          rw [hv, List.count_append, count_heal_singleton, if_pos hheal, hinv, hc]
        have hlt2 : (st2.healCycles : Int) < limit := by
          rw [hc]; exact_mod_cast hlim
        exact ih st2 r h hinv2 hlt2
      · have hinv2 : st2.visited.count "heal" = st2.healCycles := by
          rw [hv, List.count_append, count_heal_singleton, if_neg hheal, hinv, hc]
          omega
        have hlt2 : (st2.healCycles : Int) < limit := by rw [hc]; exact hlt
        exact ih st2 r h hinv2 hlt2
    | halt r0 =>
      rw [hstep] at h
      simp only [] at h
      cases h
      rcases execStep_halt_inv nodes edges cbs limit st r hstep with
        hv | ⟨hv, hlim, hsucc, herr⟩ | ⟨nt, hv, hheal⟩
      · rw [hv, hinv]
        constructor
        · omega
        · intro heq; omega
      · rw [hv, List.count_append, count_heal_singleton, if_pos rfl, hinv]
        constructor
        · push_cast
          omega
        · intro _
          exact ⟨hsucc, herr⟩
      · by_cases hnt : nt = "heal"
        · have := hheal hnt
          rw [hv, List.count_append, count_heal_singleton, if_pos hnt, hinv]
          constructor
          · push_cast; omega
          · intro heq; push_cast at heq; omega
        · rw [hv, List.count_append, count_heal_singleton, if_neg hnt, hinv]
          constructor
          · omega
          · intro heq; omega

/-- C1 (amended): with the effective attempt limit computed by Python
truthiness — the caller-supplied `attempt_limit` when given and nonzero,
else the graph's declared `max_attempts` when given and nonzero, else 3
— and positive, the number of heal-node visits in a terminating
`execute_graph` run never exceeds that limit, and a run whose heal-visit
count reaches the limit terminated with `success=false` and the
healing-budget error in its report. -/
theorem c1_heal_budget {σ : Type} (g : Graph) (cbs : String → Option (Callback σ))
    (initial_context : Context) (attempt_limit : Option Int) (w : σ) (fuel : Nat) (r : Report)
    (hrun : execute_graph g cbs initial_context attempt_limit w fuel = .report r)
    (hpos : 1 ≤ effectiveLimit attempt_limit g.max_attempts) :
    ((r.visited.count "heal" : Int) ≤ effectiveLimit attempt_limit g.max_attempts) ∧
    ((r.visited.count "heal" : Int) = effectiveLimit attempt_limit g.max_attempts →
      r.success = false ∧ r.error = some errBudget) := by
  unfold execute_graph at hrun
  cases hstart : startOf g with
  | none =>
    rw [hstart] at hrun
    simp only [] at hrun
    cases hrun
    constructor
    · simp
      omega
    · intro heq
      simp at heq
      exfalso
      omega
  | some s =>
    rw [hstart] at hrun
    simp only [] at hrun
    by_cases hval : s = "" ∨ ¬ g.nodes.any (fun n => n.id == s)
    · rw [if_pos hval] at hrun
      cases hrun
      constructor
      · simp
        omega
      · intro heq
        simp at heq
        exfalso
        omega
    · rw [if_neg hval] at hrun
      exact execLoop_heal_bound g.nodes g.edges cbs _ fuel _ r hrun (by simp) (by simp; omega)

/-- Witness for `c1_heal_budget`: a self-looping heal node under
`attempt_limit = 1` stops after one heal visit with the budget error. -/
theorem c1_witness :
    (execute_graph (σ := Unit)
      ⟨some "H", none, [⟨"H", some "heal"⟩, ⟨"E", some "end"⟩], [⟨some "H", "H", some "always"⟩]⟩
      (fun t => if t = "heal" then some (fun w _ => (mkResult "heal" true "h" "" "x", w)) else none)
      ⟨none, none⟩ (some 1) () 3 =
      .report ⟨false, [mkResult "heal" true "h" "" "x"],
               ⟨some "x", some (mkResult "heal" true "h" "" "x")⟩, some errBudget, ["heal"]⟩) ∧
    (((["heal"] : List String).count "heal" : Int) ≤ effectiveLimit (some 1) none ∧
      (((["heal"] : List String).count "heal" : Int) = effectiveLimit (some 1) none →
        (false : Bool) = false ∧ (some errBudget : Option String) = some errBudget)) :=
  ⟨by decide,
   c1_heal_budget (σ := Unit)
    ⟨some "H", none, [⟨"H", some "heal"⟩, ⟨"E", some "end"⟩], [⟨some "H", "H", some "always"⟩]⟩
    (fun t => if t = "heal" then some (fun w _ => (mkResult "heal" true "h" "" "x", w)) else none)
    ⟨none, none⟩ (some 1) () 3
    ⟨false, [mkResult "heal" true "h" "" "x"],
     ⟨some "x", some (mkResult "heal" true "h" "" "x")⟩, some errBudget, ["heal"]⟩
    (by decide) (by decide)⟩

/-- C1 counterexample: the claim computes the effective limit as the
caller-supplied `attempt_limit` whenever it is given; but the source
line `attempt_limit or ... or 3` treats a given `attempt_limit = 0` as
falsy, so a run with `attempt_limit = 0` still visits a heal node once
(and here even ends with `success=true`), exceeding the claimed
effective limit of 0. -/
theorem c1_counterexample :
    claimEffectiveLimit (some 0) none = 0 ∧
    execute_graph (σ := Unit)
      ⟨some "H", none, [⟨"H", some "heal"⟩, ⟨"E", some "end"⟩], [⟨some "H", "E", some "always"⟩]⟩
      (fun t => if t = "heal" then some (fun w _ => (mkResult "heal" true "h" "" "x", w)) else none)
      ⟨none, none⟩ (some 0) () 3 =
      .report ⟨true, [mkResult "heal" true "h" "" "x"],
               ⟨some "x", some (mkResult "heal" true "h" "" "x")⟩, none, ["heal"]⟩ ∧
    ((["heal"] : List String).count "heal" = 1 ∧
      claimEffectiveLimit (some 0) none < ((["heal"] : List String).count "heal" : Int)) :=
  ⟨by decide, by decide, by decide, by decide⟩

/-- Helper: a route target is the `to` of some declared edge. -/
theorem routeEdge_mem (edges : List Edge) (current : String) (succ : Bool) (t : String) :
    routeEdge edges current succ = some t → ∃ e ∈ edges, e.dst = t := by
  induction edges with
  | nil => intro h; cases h
  | cons e es ih =>
    intro h
    unfold routeEdge at h
    split at h
    · obtain ⟨e2, he2, hd⟩ := ih h
      exact ⟨e2, List.mem_cons_of_mem e he2, hd⟩
    · split at h
      · cases h; exact ⟨e, List.mem_cons_self e es, rfl⟩
      · split at h
        · cases h; exact ⟨e, List.mem_cons_self e es, rfl⟩
        · split at h
          · cases h; exact ⟨e, List.mem_cons_self e es, rfl⟩
          · obtain ⟨e2, he2, hd⟩ := ih h
            exact ⟨e2, List.mem_cons_of_mem e he2, hd⟩

/-- Helper: a node id present in the declared nodes is found by the
node-dictionary lookup. -/
theorem dictLookup_isSome (ns : List NodeDef) (c : String)
    (h : ns.any (fun n => n.id == c) = true) : (dictLookup ns c).isSome = true := by
  unfold dictLookup
  rw [List.find?_isSome]
  rw [List.any_eq_true] at h
  obtain ⟨n, hn, hid⟩ := h
  exact ⟨n, List.mem_reverse.mpr hn, hid⟩

/-- Helper: when every edge target is a declared node, the loop never
raises, whatever the fuel, provided the current node is declared. -/
theorem execLoop_no_raise {σ : Type} (nodes : List NodeDef) (edges : List Edge)
    (cbs : String → Option (Callback σ)) (limit : Int)
    (hclosed : ∀ e ∈ edges, nodes.any (fun n => n.id == e.dst) = true) :
    ∀ (fuel : Nat) (st : ExecState σ),
      nodes.any (fun n => n.id == st.current) = true →
      ∀ m, execLoop nodes edges cbs limit fuel st ≠ .raised m := by
  intro fuel
  induction fuel with
  | zero => intro st hcur m h; cases h
  | succ fuel ih =>
    intro st hcur m h
    rw [execLoop] at h
    cases hlook : dictLookup nodes st.current with
    | none =>
      have := dictLookup_isSome nodes st.current hcur
      rw [hlook] at this
      cases this
    | some node =>
      unfold execStep at h
      rw [hlook] at h
      simp only [] at h
      by_cases hend : nodeTypeOf node = "end"
      · rw [if_pos hend] at h; cases h
      · rw [if_neg hend] at h
        cases hcb : cbs (nodeTypeOf node) with
        | none => rw [hcb] at h; cases h
        | some f =>
          rw [hcb] at h
          simp only [] at h
          by_cases hbud : nodeTypeOf node = "heal" ∧
              limit ≤ ((if nodeTypeOf node = "heal" then st.healCycles + 1 else st.healCycles : Nat) : Int)
          · rw [if_pos hbud] at h; cases h
          · rw [if_neg hbud] at h
            cases hroute : routeEdge edges st.current (normalizeTf (f st.world st.ctx).1).success with
            | none => rw [hroute] at h; cases h
            | some nxt =>
              rw [hroute] at h
              obtain ⟨e2, he2, hd⟩ :=
                routeEdge_mem edges st.current (normalizeTf (f st.world st.ctx).1).success nxt hroute
              have hnxt : nodes.any (fun n => n.id == nxt) = true := by
                rw [← hd]; exact hclosed e2 he2
              exact ih _ hnxt m h

/-- C3 (amended): for every graph whose edges all target declared nodes
(and any callback registry, initial context, attempt limit and fuel),
`execute_graph` never raises past its own boundary: every failure mode
(bad or missing start node, unregistered node type, unroutable state,
exhausted healing budget) is represented in the returned structured
report via `success` and the optional `error` field.  Without the
edge-target restriction the source raises `KeyError`
(`c3_counterexample`). -/
theorem c3_no_raise {σ : Type} (g : Graph) (cbs : String → Option (Callback σ))
    (initial_context : Context) (attempt_limit : Option Int) (w : σ) (fuel : Nat)
    (hclosed : ∀ e ∈ g.edges, g.nodes.any (fun n => n.id == e.dst) = true) :
    ∀ m, execute_graph g cbs initial_context attempt_limit w fuel ≠ .raised m := by
  intro m h
  unfold execute_graph at h
  cases hstart : startOf g with
  | none =>
    rw [hstart] at h
    simp only [] at h
    cases h
  | some s =>
    rw [hstart] at h
    simp only [] at h
    by_cases hval : s = "" ∨ ¬ g.nodes.any (fun n => n.id == s)
    · rw [if_pos hval] at h; cases h
    · rw [if_neg hval] at h
      push_neg at hval
      exact execLoop_no_raise g.nodes g.edges cbs _ hclosed fuel _
        (by simpa using hval.2) m h

/-- Witness for `c3_no_raise`: the repository's default self-healing
graph (all edge targets declared) with an empty callback registry does
not raise. -/
theorem c3_witness :
    execute_graph (σ := Unit) build_default_terraform_graph (fun _ => none)
      ⟨some "t", none⟩ none () 5 ≠ Outcome.raised "KeyError" :=
  c3_no_raise build_default_terraform_graph (fun _ => none)
    ⟨some "t", none⟩ none () 5 (by decide) "KeyError"

/-- C3 counterexample: on a graph with an edge to an undeclared node,
`execute_graph` raises `KeyError` out of `nodes[current]` instead of
returning a structured report, so the claim's universal no-raise
guarantee fails on the code as written. -/
theorem c3_counterexample :
    execute_graph (σ := Unit)
      ⟨some "A", none, [⟨"A", some "plan"⟩], [⟨some "A", "GHOST", some "always"⟩]⟩
      (fun t => if t = "plan" then some (fun w _ => (mkResult "plan" true "p" "" "x", w)) else none)
      ⟨none, none⟩ none () 3 =
      Outcome.raised ("KeyError: " ++ pyq ++ "GHOST" ++ pyq) := by
  decide
